import Mathlib

/-!
Verification of the stock-scanner repository's scanning engine, filter
catalog and chart resampling against its natural-language specification.

The development shallowly embeds the Python/polars source:

* `src/scanner/engine.py`   — `ScannerEngine.scan`
* `src/scanner/filters/…`   — `BaseFilter` catalog (`gap.py`, `trend.py`, `common.py`)
* `src/visualization/plotter.py` — `Plotter._process_data` resampling

Prices and volumes are modelled as rationals (`ℚ`); polars nulls as
`Option`; a polars column as a `List (Option ℚ)` parallel to the row
list; a dataframe as a row list plus such columns.  Dates are modelled
as naturals (their ordering is all the code uses).
-/

/-- One OHLCV observation, the row schema of a stored parquet file
(columns `date, open, high, low, close, volume`). -/
structure Bar where
  date : ℕ
  «open» : ℚ
  high : ℚ
  low : ℚ
  close : ℚ
  volume : ℚ
deriving Repr, DecidableEq

instance : Inhabited Bar := ⟨⟨0, 0, 0, 0, 0, 0⟩⟩

/-- Storage: one series per symbol, keyed by the parquet file's name stem.
`ScannerEngine.scan` globs `data_dir/*.parquet` and derives `symbol`
from each file path. -/
abbrev Storage := List (String × List Bar)

/-- A symbol-tagged row of the flattened multi-symbol frame. -/
abbrev TRow := String × Bar

/-- Window of the trailing `n` elements ending at index `i` (inclusive),
as used by a polars `rolling_*` aggregation. -/
def trailingWindow (n i : ℕ) (xs : List ℚ) : List ℚ :=
  (xs.take (i + 1)).drop (i + 1 - n)

/-- Polars `Expr.rolling_*(n)` with the default `min_periods = n`:
position `i` holds `agg` of the trailing `n` values once `n` values
exist, and null before that. -/
def rollingApply (agg : List ℚ → ℚ) (n : ℕ) (xs : List ℚ) : List (Option ℚ) :=
  (List.range xs.length).map fun i =>
    if n ≤ i + 1 then some (agg (trailingWindow n i xs)) else none

/-- Mean aggregation of a full window of length `n` (`rolling_mean`). -/
def meanAgg (n : ℕ) (w : List ℚ) : ℚ := w.sum / n

/-- Maximum of a window (`rolling_max`); the default is irrelevant since
`rollingApply` only aggregates full, hence non-empty, windows. -/
def maxAgg (w : List ℚ) : ℚ :=
  match w with
  | [] => 0
  | h :: t => t.foldl max h

/-- Minimum of a window (`rolling_min`). -/
def minAgg (w : List ℚ) : ℚ :=
  match w with
  | [] => 0
  | h :: t => t.foldl min h

/-- Polars `Expr.shift(n)` on an optional column: nulls for the first
`n` positions, then the value from `n` rows earlier. -/
def shiftOpt (n : ℕ) (col : List (Option ℚ)) : List (Option ℚ) :=
  (List.range col.length).map fun i =>
    if n ≤ i then col.getD (i - n) none else none

/-! ### Per-symbol scoping (`Expr.over("symbol")`)

Polars `.over("symbol")` evaluates an expression within each symbol's
partition and scatters the results back to the original row positions.
We model it index-wise: the value at row `i` is the partition
expression, applied to the rows sharing row `i`'s symbol, read at row
`i`'s position within that partition. -/

/-- Symbol of the `i`-th row of a tagged frame. -/
def symAt {α : Type} (rows : List (String × α)) (i : ℕ) : String :=
  (rows.map Prod.fst).getD i ""

/-- Payloads of the rows of symbol `s`, in frame order: the partition
`.over("symbol")` evaluates an expression on. -/
def grpOf {α : Type} (rows : List (String × α)) (s : String) : List α :=
  (rows.filter (fun x => x.1 == s)).map Prod.snd

/-- Number of rows of symbol `s` strictly before position `i`: the
position row `i` occupies inside its own partition. -/
def cntBefore {α : Type} (rows : List (String × α)) (i : ℕ) (s : String) : ℕ :=
  ((rows.take i).filter (fun x => x.1 == s)).length

/-- Row positions of symbol `s` in the frame, ascending. -/
def sIdx {α : Type} (rows : List (String × α)) (s : String) : List ℕ :=
  (List.range rows.length).filter (fun i => symAt rows i == s)

/-- Value of `(expr).over("symbol")` at row `i`, for a partition
expression `f`. -/
def overAt {α : Type} (f : List α → List (Option ℚ)) (rows : List (String × α)) (i : ℕ) :
    Option ℚ :=
  (f (grpOf rows (symAt rows i))).getD (cntBefore rows i (symAt rows i)) none

/-- Column produced by `(expr).over("symbol")` on a tagged frame. -/
def overCol {α : Type} (f : List α → List (Option ℚ)) (rows : List (String × α)) :
    List (Option ℚ) :=
  (List.range rows.length).map (overAt f rows)

/-- Column produced by `pl.col(c).shift(n).over("symbol")` applied to an
already-computed column `col`: at row `i`, the value of `col` at the row
`n` places earlier inside row `i`'s symbol partition. -/
def overShift {α : Type} (n : ℕ) (rows : List (String × α)) (col : List (Option ℚ)) :
    List (Option ℚ) :=
  (List.range rows.length).map fun i =>
    let s := symAt rows i
    if n ≤ cntBefore rows i s then
      col.getD ((sIdx rows s).getD (cntBefore rows i s - n) 0) none
    else none

/-- Restriction of a column to the rows of symbol `s`, in frame order. -/
def selCol {α : Type} (rows : List (String × α)) (s : String) (col : List (Option ℚ)) :
    List (Option ℚ) :=
  (sIdx rows s).map (fun i => col.getD i none)

/-! ### Single-series indicator expressions

Each is the partition expression of one engine column, phrased over one
symbol's series alone — exactly what `.over("symbol")` evaluates per
partition, and the reference value for the per-symbol isolation claim. -/

/-- `pl.col("close").rolling_mean(n)` on one series. -/
def smaSeries (n : ℕ) (bars : List Bar) : List (Option ℚ) :=
  rollingApply (meanAgg n) n (bars.map Bar.close)

/-- `pl.col("volume").rolling_mean(n)` on one series. -/
def avgVolSeries (n : ℕ) (bars : List Bar) : List (Option ℚ) :=
  rollingApply (meanAgg n) n (bars.map Bar.volume)

/-- `pl.col("high").rolling_max(n)` on one series. -/
def highSeries (n : ℕ) (bars : List Bar) : List (Option ℚ) :=
  rollingApply maxAgg n (bars.map Bar.high)

/-- `pl.col("low").rolling_min(n)` on one series. -/
def lowSeries (n : ℕ) (bars : List Bar) : List (Option ℚ) :=
  rollingApply minAgg n (bars.map Bar.low)

/-- Daily range percentage `(high - low) / low * 100` of one bar
(`engine.py` and `MinAdrFilter.required_indicators`). -/
def dailyRangePct (b : Bar) : ℚ := (b.high - b.low) / b.low * 100

/-- `daily_range_pct.rolling_mean(n)` on one series (`adr_n`). -/
def adrSeries (n : ℕ) (bars : List Bar) : List (Option ℚ) :=
  rollingApply (meanAgg n) n (bars.map dailyRangePct)

/-- `pl.col("high").shift(1)` on one series: `prev_high` as declared by
`GapUpFilter.required_indicators`. -/
def prevHighSeries (bars : List Bar) : List (Option ℚ) :=
  shiftOpt 1 (bars.map (fun b => some b.high))

/-- `pl.col("sma_200").shift(20)` on one series: `sma_200_1m_ago`. -/
def sma200ShiftSeries (bars : List Bar) : List (Option ℚ) :=
  shiftOpt 20 (smaSeries 200 bars)

/-- `volume / avg_volume_20` on one series: `rvol_20` restricted to one
symbol (row-wise, null propagating). -/
def rvolSeries (bars : List Bar) : List (Option ℚ) :=
  (List.range bars.length).map fun i =>
    ((avgVolSeries 20 bars).getD i none).map (fun a => (bars.getD i default).volume / a)

/-! ### The engine's frame (`ScannerEngine.scan`, steps before filtering)

`scan` globs all parquet files, tags rows with the file-stem symbol,
sorts by `["symbol", "date"]`, computes indicator columns with
`.over("symbol")`, derives `rvol_20` row-wise, and collapses with
`group_by("symbol").last()`. -/

/-- Flatten storage into symbol-tagged rows (the glob plus the
`file_path → symbol` derivation). -/
def tagRows (storage : Storage) : List TRow :=
  storage.bind (fun p => p.2.map (fun b => ((p.1, b) : TRow)))

/-- Sort key order of `lf.sort(["symbol", "date"])`. -/
def rowLe (a b : TRow) : Prop :=
  a.1 < b.1 ∨ (a.1 = b.1 ∧ a.2.date ≤ b.2.date)

instance : DecidableRel rowLe := fun a b =>
  inferInstanceAs (Decidable (_ ∨ _))

instance : IsTotal TRow rowLe where
  total a b := by
    rcases lt_trichotomy a.1 b.1 with h | h | h
    · exact Or.inl (Or.inl h)
    · rcases Nat.le_total a.2.date b.2.date with h' | h'
      · exact Or.inl (Or.inr ⟨h, h'⟩)
      · exact Or.inr (Or.inr ⟨h.symm, h'⟩)
    · exact Or.inr (Or.inl h)

instance : IsTrans TRow rowLe where
  trans a b c hab hbc := by
    rcases hab with h1 | ⟨e1, d1⟩
    · rcases hbc with h2 | ⟨e2, _⟩
      · exact Or.inl (lt_trans h1 h2)
      · exact Or.inl (e2 ▸ h1)
    · rcases hbc with h2 | ⟨e2, d2⟩
      · exact Or.inl (e1 ▸ h2)
      · exact Or.inr ⟨e1.trans e2, le_trans d1 d2⟩

/-- `lf.sort(["symbol", "date"])` (polars sort is stable). -/
def sortRows (rows : List TRow) : List TRow :=
  List.insertionSort rowLe rows

/-- Sorted tagged universe a scan works on. -/
def universeRows (storage : Storage) : List TRow :=
  sortRows (tagRows storage)

/-- Engine column `sma_50`. -/
def sma50Col (rows : List TRow) : List (Option ℚ) := overCol (smaSeries 50) rows

/-- Engine column `sma_150`. -/
def sma150Col (rows : List TRow) : List (Option ℚ) := overCol (smaSeries 150) rows

/-- Engine column `sma_200`. -/
def sma200Col (rows : List TRow) : List (Option ℚ) := overCol (smaSeries 200) rows

/-- Engine column `avg_volume_20`. -/
def avgVol20Col (rows : List TRow) : List (Option ℚ) := overCol (avgVolSeries 20) rows

/-- Engine column `high_252` (computed when `trend_template or min_adr`). -/
def high252Col (rows : List TRow) : List (Option ℚ) := overCol (highSeries 252) rows

/-- Engine column `low_252` (computed when `trend_template or min_adr`). -/
def low252Col (rows : List TRow) : List (Option ℚ) := overCol (lowSeries 252) rows

/-- Engine column `adr_20` (computed when `trend_template or min_adr`). -/
def adr20Col (rows : List TRow) : List (Option ℚ) := overCol (adrSeries 20) rows

/-- Bar payload of the `i`-th row. -/
def barAt (rows : List TRow) (i : ℕ) : Bar :=
  (rows.map Prod.snd).getD i default

/-- Engine column `rvol_20 = volume / avg_volume_20`, a row-wise
expression over already-computed columns (null propagates). -/
def rvol20Col (rows : List TRow) : List (Option ℚ) :=
  (List.range rows.length).map fun i =>
    ((avgVol20Col rows).getD i none).map (fun a => (barAt rows i).volume / a)

/-- Engine column `sma_200_1m_ago = col("sma_200").shift(20).over("symbol")`
(computed when `trend_template`). -/
def sma200Shift20Col (rows : List TRow) : List (Option ℚ) :=
  overShift 20 rows (sma200Col rows)

/-- Column `prev_high = col("high").shift(1).over("symbol")` as declared
by `GapUpFilter.required_indicators` (not computed by the keyword-driven
engine itself). -/
def prevHighCol (rows : List TRow) : List (Option ℚ) :=
  overCol prevHighSeries rows

/-- A fully-augmented scan row: the tagged bar plus every indicator
column the engine can attach.  The engine materializes `adr_20`,
`high_252`, `low_252` only when `trend_template or min_adr is not None`
and `sma_200_1m_ago` only when `trend_template`; the *values* when
materialized are always the ones below, so the model carries them all
and `scanColumns` records which ones a given option set materializes. -/
structure IRow where
  symbol : String
  bar : Bar
  sma_50 : Option ℚ
  sma_150 : Option ℚ
  sma_200 : Option ℚ
  avg_volume_20 : Option ℚ
  rvol_20 : Option ℚ
  adr_20 : Option ℚ
  high_252 : Option ℚ
  low_252 : Option ℚ
  sma_200_1m_ago : Option ℚ
deriving Repr, DecidableEq

/-- Assembled frame row at position `i`. -/
def mkIRowAt (rows : List TRow) (i : ℕ) : IRow where
  symbol := symAt rows i
  bar := barAt rows i
  sma_50 := (sma50Col rows).getD i none
  sma_150 := (sma150Col rows).getD i none
  sma_200 := (sma200Col rows).getD i none
  avg_volume_20 := (avgVol20Col rows).getD i none
  rvol_20 := (rvol20Col rows).getD i none
  adr_20 := (adr20Col rows).getD i none
  high_252 := (high252Col rows).getD i none
  low_252 := (low252Col rows).getD i none
  sma_200_1m_ago := (sma200Shift20Col rows).getD i none

/-- The engine's indicator-augmented frame, rows still one per bar. -/
def mkFrame (storage : Storage) : List IRow :=
  let rows := universeRows storage
  (List.range rows.length).map (mkIRowAt rows)

/-! ### Collapse to one row per symbol (`group_by("symbol").last()`) -/

/-- Distinct elements in order of first appearance (`seen` accumulates
keys already emitted). -/
def firstOccsAux {α : Type} [BEq α] : List α → List α → List α
  | [], _ => []
  | s :: rest, seen =>
    if seen.contains s then firstOccsAux rest seen
    else s :: firstOccsAux rest (s :: seen)

/-- Distinct group keys of a frame, first-appearance order.  Polars
leaves group order unspecified (`maintain_order=False`); the claims
below are order-insensitive, so one concrete order is fixed. -/
def firstOccs {α : Type} [BEq α] (l : List α) : List α := firstOccsAux l []

/-- `group_by("symbol").last()`: one row per distinct symbol, every
column taking its last value within the group — i.e. the group's last
row, since the whole row is aggregated with `last`. -/
def lastPerSymbol (frame : List IRow) : List IRow :=
  (firstOccs (frame.map IRow.symbol)).filterMap
    (fun s => (frame.filter (fun r => r.symbol == s)).getLast?)

/-! ### Screening criteria (`scan`'s keyword parameters)

The signature of `ScannerEngine.scan` in `src/scanner/engine.py` is
`scan(self, min_price=None, min_volume=None, min_relative_volume=None,
min_adr=None, trend_template=False, rsi_threshold=None)`; a `None`
criterion is skipped.  `rsi_threshold` is accepted but never used by
the body. -/

/-- The keyword options of `ScannerEngine.scan`. -/
structure ScanOptions where
  min_price : Option ℚ := none
  min_volume : Option ℚ := none
  min_relative_volume : Option ℚ := none
  min_adr : Option ℚ := none
  trend_template : Bool := false
  rsi_threshold : Option ℚ := none

/-- Comparison `col >= threshold` on a nullable column: a null never
satisfies a polars filter predicate. -/
def optGeB (v : Option ℚ) (t : ℚ) : Bool :=
  match v with
  | none => false
  | some x => decide (t ≤ x)

/-- Comparison `a > b` on nullable operands, null propagating to "row
dropped". -/
def optGtB (a b : Option ℚ) : Bool :=
  match a, b with
  | some x, some y => decide (y < x)
  | _, _ => false

/-- The trend-template conjunction filtered on in `engine.py`
(`1.25 = 5/4`, `0.75 = 3/4` exactly). -/
def trendPassB (r : IRow) : Bool :=
  optGtB (some r.bar.close) r.sma_50 &&
  optGtB r.sma_50 r.sma_150 &&
  optGtB r.sma_150 r.sma_200 &&
  optGtB r.sma_200 r.sma_200_1m_ago &&
  optGtB (some r.bar.close) (r.low_252.map (fun x => x * (5 / 4 : ℚ))) &&
  optGtB (some r.bar.close) (r.high_252.map (fun x => x * (3 / 4 : ℚ)))

/-- The sequential `if criterion is not None: lf = lf.filter(...)`
chain of `scan` (lines 93–121 of `engine.py`), applied to the collapsed
frame. -/
def applyCriteria (o : ScanOptions) (l : List IRow) : List IRow :=
  let l1 := match o.min_price with
    | none => l
    | some p => l.filter (fun r => decide (p ≤ r.bar.close))
  let l2 := match o.min_volume with
    | none => l1
    | some v => l1.filter (fun r => decide (v ≤ r.bar.volume))
  let l3 := match o.min_relative_volume with
    | none => l2
    | some v => l2.filter (fun r => optGeB r.rvol_20 v)
  let l4 := match o.min_adr with
    | none => l3
    | some v => l3.filter (fun r => optGeB r.adr_20 v)
  if o.trend_template then l4.filter trendPassB else l4

/-- The query `ScannerEngine.scan` builds and collects when the glob
matched at least one file: tag + sort + indicators + collapse +
criteria.  This is the pure frame pipeline only; the outcome of the
whole method, including the collect step that can fail on a zero-file
glob, is `scanRun` below. -/
def scan (o : ScanOptions) (storage : Storage) : List IRow :=
  applyCriteria o (lastPerSymbol (mkFrame storage))

/-- Outcome of running `ScannerEngine.scan` to completion.  The
`try/except` of `engine.py` (lines 25–30) guards only the lazy
`pl.scan_parquet` constructor, which does not expand the glob; the
glob is expanded when the query is collected at `lf.collect()`
(line 124), outside any `try`, so a directory with zero parquet files
raises there ("expected at least 1 source").  With at least one file
the collect returns the filtered frame. -/
def scanRun (o : ScanOptions) (storage : Storage) : Except String (List IRow) :=
  match storage with
  | [] => Except.error "expected at least 1 source: glob matched no files"
  | _ => Except.ok (scan o storage)

/-- Columns of the raw stored frame after symbol tagging (`date, open,
high, low, close, volume` from parquet, plus `file_path` from
`include_file_paths` and the derived `symbol`). -/
def baseColumns : List String :=
  ["date", "open", "high", "low", "close", "volume", "file_path", "symbol"]

/-- Schema of the frame `scan` builds for a given option set: the base
window expressions are unconditional, `high_252`, `low_252`, `adr_20`
are added when `trend_template or min_adr is not None`, `rvol_20` is
unconditional, and `sma_200_1m_ago` is added when `trend_template`.
`group_by.last` and `filter` preserve the schema. -/
def scanColumns (o : ScanOptions) : List String :=
  baseColumns ++ ["sma_50", "sma_150", "sma_200", "avg_volume_20"] ++
    (if o.trend_template || o.min_adr.isSome then ["high_252", "low_252", "adr_20"] else []) ++
    ["rvol_20"] ++
    (if o.trend_template then ["sma_200_1m_ago"] else [])

/-! ### The gap-up filter (`src/scanner/filters/gap.py`)

`GapUpFilter.apply` filters on
`pl.col("open") > pl.col("prev_high") * (1 + threshold_pct / 100)`. -/

/-- Predicate of `GapUpFilter.apply` on one row, given the row's `open`
and its `prev_high` column value (null `prev_high` drops the row). -/
def gapPassB (threshold_pct : ℚ) («open» : ℚ) (prev_high : Option ℚ) : Bool :=
  match prev_high with
  | none => false
  | some p => decide (p * (1 + threshold_pct / 100) < «open»)

/-! ### Keyword surface of `scan` (claim C3)

Python binds a keyword argument only to a parameter of that name;
`scan` declares no `**kwargs`, so a call `scan(filters=[...])` — the
form used by `src/cli.py` line 328 and `tests/test_scanner_engine.py` —
binds nothing and raises `TypeError`. -/

/-- Parameter names of `ScannerEngine.scan` (after `self`), in source
order. -/
def scanParams : List String :=
  ["min_price", "min_volume", "min_relative_volume", "min_adr",
   "trend_template", "rsi_threshold"]

/-- Whether a Python keyword argument named `k` can bind in a call to
`ScannerEngine.scan`. -/
def scanAcceptsKeyword (k : String) : Bool := scanParams.contains k

/-! ### Chart resampling (`Plotter._process_data`, step 2)

`df.sort("date")` then `group_by_dynamic("date", every=resample)` with
aggregations `open.first, high.max, low.min, close.last, volume.sum`.
Buckets are the `every`-aligned truncations of the dates present. -/

/-- Date order used by `df.sort("date")`. -/
def dateLe (a b : Bar) : Prop := a.date ≤ b.date

instance : DecidableRel dateLe := fun a b =>
  inferInstanceAs (Decidable (_ ≤ _))

instance : IsTotal Bar dateLe := ⟨fun a b => Nat.le_total a.date b.date⟩

instance : IsTrans Bar dateLe := ⟨fun _ _ _ h h' => Nat.le_trans h h'⟩

/-- `df.sort("date")` (stable). -/
def sortByDate (df : List Bar) : List Bar := List.insertionSort dateLe df

/-- Bucket (window start) a date falls into for interval `every`. -/
def bucketOf (every d : ℕ) : ℕ := d / every * every

/-- Rows of the sorted frame falling into bucket `k`. -/
def bucketRows (every : ℕ) (df : List Bar) (k : ℕ) : List Bar :=
  (sortByDate df).filter (fun b => bucketOf every b.date == k)

/-- The resampled OHLCV frame of `_process_data`: one output row per
occupied bucket with `open=first, high=max, low=min, close=last,
volume=sum` over the bucket's rows in ascending date order. -/
def resampleOHLCV (every : ℕ) (df : List Bar) : List Bar :=
  (firstOccs ((sortByDate df).map (fun b => bucketOf every b.date))).map
    (fun k =>
      let g := bucketRows every df k
      { date := k
        «open» := (g.map Bar.«open»).headD 0
        high := maxAgg (g.map Bar.high)
        low := minAgg (g.map Bar.low)
        close := (g.map Bar.close).getLastD 0
        volume := (g.map Bar.volume).sum })

/-! ### Derived predicates and configurations used by the claims -/

/-- Check of one optional criterion: absent means "no constraint". -/
def optCheck (c : Option ℚ) (t : ℚ → Bool) : Bool :=
  match c with
  | none => true
  | some v => t v

/-- Conjunction of every active criterion of `scan`, as one predicate:
`applyCriteria` filters with each in sequence, which is the same as
keeping the rows satisfying all of them. -/
def passB (o : ScanOptions) (r : IRow) : Bool :=
  optCheck o.min_price (fun p => decide (p ≤ r.bar.close)) &&
  optCheck o.min_volume (fun v => decide (v ≤ r.bar.volume)) &&
  optCheck o.min_relative_volume (fun v => optGeB r.rvol_20 v) &&
  optCheck o.min_adr (fun v => optGeB r.adr_20 v) &&
  (!o.trend_template || trendPassB r)

/-- A scan with every criterion disabled (the signature's defaults). -/
def noCriteria : ScanOptions where

/-- Union of two criterion sets: each optional threshold taken from
whichever side provides it, `trend_template` by disjunction. -/
def unionOpts (o1 o2 : ScanOptions) : ScanOptions where
  min_price := o1.min_price <|> o2.min_price
  min_volume := o1.min_volume <|> o2.min_volume
  min_relative_volume := o1.min_relative_volume <|> o2.min_relative_volume
  min_adr := o1.min_adr <|> o2.min_adr
  trend_template := o1.trend_template || o2.trend_template
  rsi_threshold := o1.rsi_threshold <|> o2.rsi_threshold

/-- Two criterion sets describe a genuine union (a set of filters) when
no threshold is given twice with different values. -/
def compatOpts (o1 o2 : ScanOptions) : Prop :=
  (o1.min_price = none ∨ o2.min_price = none ∨ o1.min_price = o2.min_price) ∧
  (o1.min_volume = none ∨ o2.min_volume = none ∨ o1.min_volume = o2.min_volume) ∧
  (o1.min_relative_volume = none ∨ o2.min_relative_volume = none ∨
    o1.min_relative_volume = o2.min_relative_volume) ∧
  (o1.min_adr = none ∨ o2.min_adr = none ∨ o1.min_adr = o2.min_adr)

/-- The spec's trend-template reading of a row: all six comparisons
hold on concrete (non-null) indicator values; any null fails. -/
def trendConditions (r : IRow) : Prop :=
  ∃ a b c d lo hi,
    r.sma_50 = some a ∧ r.sma_150 = some b ∧ r.sma_200 = some c ∧
    r.sma_200_1m_ago = some d ∧ r.low_252 = some lo ∧ r.high_252 = some hi ∧
    a < r.bar.close ∧ b < a ∧ c < b ∧ d < c ∧
    lo * (5 / 4) < r.bar.close ∧ hi * (3 / 4) < r.bar.close

/-- Criterion set activating only the relative-volume filter. -/
def rvolOpts : ScanOptions where
  min_relative_volume := some 1

/-- Criterion set activating only the ADR filter. -/
def adrOpts : ScanOptions where
  min_adr := some 1

/-- Criterion set activating only the trend template. -/
def ttOpts : ScanOptions where
  trend_template := true

/-- Criterion set activating only a minimum price of 1. -/
def priceOpts : ScanOptions where
  min_price := some 1

/-- Concrete bars for claim instantiation (integer-valued so that all
decision procedures evaluate): day 1 and day 2 of symbol GAP, with
`high = 11` on day 1 as in the gap-up scenario. -/
def bA1 : Bar := ⟨1, 10, 11, 9, 10, 1000⟩

/-- Second GAP bar. -/
def bA2 : Bar := ⟨2, 12, 13, 11, 12, 1800⟩

/-- Single bar of symbol BBB. -/
def bB1 : Bar := ⟨1, 20, 21, 19, 20, 500⟩

/-- Two-symbol storage used to instantiate the universally quantified
claims at concrete inputs. -/
def wStorage : Storage := [("GAP", [bA1, bA2]), ("BBB", [bB1])]

/-- An arbitrary concrete augmented row (all indicators null). -/
def wRow : IRow := ⟨"X", bA1, none, none, none, none, none, none, none, none, none⟩

/-! ### List index helpers -/

theorem getD_map_range {β : Type} (g : ℕ → β) {n i : ℕ} (h : i < n) (d : β) :
    ((List.range n).map g).getD i d = g i := by
  rw [List.getD_eq_getElem?_getD, List.getElem?_map, List.getElem?_range h]
  rfl

theorem map_getD_self {β : Type} (v : List β) (d : β) :
    (List.range v.length).map (fun j => v.getD j d) = v := by
  apply List.ext_getElem
  · simp
  · intro i h1 h2
    simp only [List.getElem_map, List.getElem_range]
    rw [List.getD_eq_getElem?_getD, List.getElem?_eq_getElem h2]
    rfl

theorem getD_map_of_lt {β γ : Type} (f : β → γ) (l : List β) {i : ℕ} (h : i < l.length)
    (d : γ) (d' : β) : (l.map f).getD i d = f (l.getD i d') := by
  rw [List.getD_eq_getElem?_getD, List.getElem?_map, List.getElem?_eq_getElem h,
    List.getD_eq_getElem?_getD, List.getElem?_eq_getElem h]
  rfl

theorem filter_map' {β γ : Type} (f : β → γ) (p : γ → Bool) (l : List β) :
    (l.map f).filter p = (l.filter (fun b => p (f b))).map f := by
  induction l with
  | nil => rfl
  | cons a t ih =>
    by_cases h : p (f a) <;> simp [List.filter_cons, h, ih]

/-! ### Partition lemmas: `.over("symbol")` never crosses a symbol boundary -/

theorem symAt_cons_succ {α : Type} (r : String × α) (rs : List (String × α)) (i : ℕ) :
    symAt (r :: rs) (i + 1) = symAt rs i := rfl

theorem symAt_cons_zero {α : Type} (r : String × α) (rs : List (String × α)) :
    symAt (r :: rs) 0 = r.1 := rfl

theorem cntBefore_cons_succ {α : Type} (r : String × α) (rs : List (String × α)) (i : ℕ)
    (s : String) :
    cntBefore (r :: rs) (i + 1) s = (if r.1 == s then 1 else 0) + cntBefore rs i s := by
  simp only [cntBefore, List.take_succ_cons, List.filter_cons]
  by_cases h : r.1 == s <;> simp [h, Nat.add_comm]

theorem cntBefore_cons_zero {α : Type} (r : String × α) (rs : List (String × α)) (s : String) :
    cntBefore (r :: rs) 0 s = 0 := rfl

theorem sIdx_cons {α : Type} (r : String × α) (rs : List (String × α)) (s : String) :
    sIdx (r :: rs) s =
      (if r.1 == s then [0] else []) ++ (sIdx rs s).map Nat.succ := by
  unfold sIdx
  rw [List.length_cons, List.range_succ_eq_map, List.filter_cons]
  rw [filter_map' Nat.succ]
  by_cases h : r.1 == s <;>
    simp [symAt_cons_zero, symAt_cons_succ, h]

theorem grpOf_cons {α : Type} (r : String × α) (rs : List (String × α)) (s : String) :
    grpOf (r :: rs) s = if r.1 == s then r.2 :: grpOf rs s else grpOf rs s := by
  simp only [grpOf, List.filter_cons]
  by_cases h : r.1 == s <;> simp [h]

theorem sIdx_map_cntBefore {α : Type} (rows : List (String × α)) (s : String) :
    (sIdx rows s).map (fun i => cntBefore rows i s) = List.range (grpOf rows s).length := by
  induction rows with
  | nil => rfl
  | cons r rs ih =>
    rw [sIdx_cons, grpOf_cons]
    by_cases h : r.1 == s
    · simp only [h, if_pos, List.map_append, List.map_map, List.length_cons,
        List.range_succ_eq_map]
      have h0 : ([0].map fun i => cntBefore (r :: rs) i s) = [0] := by
        simp [cntBefore_cons_zero]
      rw [h0]
      have h1 : ((fun i => cntBefore (r :: rs) i s) ∘ Nat.succ) =
          fun i => Nat.succ (cntBefore rs i s) := by
        funext i
        simp [Function.comp, cntBefore_cons_succ, h, Nat.succ_eq_add_one, Nat.add_comm]
      rw [h1]
      have h2 : (fun i => Nat.succ (cntBefore rs i s)) =
          Nat.succ ∘ (fun i => cntBefore rs i s) := rfl
      rw [h2, ← List.map_map, ih]
      simp
    · simp only [h, if_neg, Bool.false_eq_true, not_false_iff, List.nil_append,
        List.map_map]
      have h1 : ((fun i => cntBefore (r :: rs) i s) ∘ Nat.succ) =
          fun i => cntBefore rs i s := by
        funext i
        simp [Function.comp, cntBefore_cons_succ, h]
      rw [h1, ih]

theorem mem_sIdx {α : Type} {rows : List (String × α)} {s : String} {i : ℕ}
    (h : i ∈ sIdx rows s) : i < rows.length ∧ symAt rows i = s := by
  unfold sIdx at h
  have h' := List.mem_filter.1 h
  exact ⟨List.mem_range.1 h'.1, by simpa using h'.2⟩

theorem length_sIdx {α : Type} (rows : List (String × α)) (s : String) :
    (sIdx rows s).length = (grpOf rows s).length := by
  have := congrArg List.length (sIdx_map_cntBefore rows s)
  simpa using this

theorem selCol_overCol {α : Type} (f : List α → List (Option ℚ))
    (hf : ∀ l, (f l).length = l.length) (rows : List (String × α)) (s : String) :
    selCol rows s (overCol f rows) = f (grpOf rows s) := by
  unfold selCol overCol
  have h1 : ∀ i ∈ sIdx rows s,
      ((List.range rows.length).map (overAt f rows)).getD i none =
        (f (grpOf rows s)).getD (cntBefore rows i s) none := by
    intro i hi
    obtain ⟨hlt, hsym⟩ := mem_sIdx hi
    rw [getD_map_range _ hlt, overAt, hsym]
  rw [List.map_congr_left h1]
  have h2 : (fun i => (f (grpOf rows s)).getD (cntBefore rows i s) none) =
      (fun j => (f (grpOf rows s)).getD j none) ∘ (fun i => cntBefore rows i s) := rfl
  rw [h2, ← List.map_map, sIdx_map_cntBefore, ← hf (grpOf rows s), map_getD_self]

theorem selCol_overShift {α : Type} (n : ℕ) (rows : List (String × α))
    (col : List (Option ℚ)) (s : String) :
    selCol rows s (overShift n rows col) = shiftOpt n (selCol rows s col) := by
  unfold selCol overShift shiftOpt
  have h1 : ∀ i ∈ sIdx rows s,
      ((List.range rows.length).map fun i =>
          let t := symAt rows i
          if n ≤ cntBefore rows i t then
            col.getD ((sIdx rows t).getD (cntBefore rows i t - n) 0) none
          else none).getD i none =
        (if n ≤ cntBefore rows i s then
          col.getD ((sIdx rows s).getD (cntBefore rows i s - n) 0) none
        else none) := by
    intro i hi
    obtain ⟨hlt, hsym⟩ := mem_sIdx hi
    rw [getD_map_range _ hlt]
    simp only [hsym]
  rw [List.map_congr_left h1]
  have h2 : (fun i =>
      if n ≤ cntBefore rows i s then
        col.getD ((sIdx rows s).getD (cntBefore rows i s - n) 0) none
      else none) =
      (fun j => if n ≤ j then col.getD ((sIdx rows s).getD (j - n) 0) none else none) ∘
        (fun i => cntBefore rows i s) := rfl
  rw [h2, ← List.map_map, sIdx_map_cntBefore]
  have hlen : ((sIdx rows s).map (fun i => col.getD i none)).length =
      (grpOf rows s).length := by simp [length_sIdx]
  rw [hlen]
  apply List.map_congr_left
  intro j hj
  have hjlt : j < (grpOf rows s).length := List.mem_range.1 hj
  by_cases hn : n ≤ j
  · simp only [hn, if_pos]
    have hjn : j - n < (sIdx rows s).length := by
      rw [length_sIdx]; exact lt_of_le_of_lt (Nat.sub_le _ _) hjlt
    rw [getD_map_of_lt _ _ hjn _ 0]
  · simp [hn]

theorem sIdx_map_getD_snd {α : Type} (rows : List (String × α)) (s : String) (d : α) :
    (sIdx rows s).map (fun i => (rows.map Prod.snd).getD i d) = grpOf rows s := by
  induction rows with
  | nil => rfl
  | cons r rs ih =>
    rw [sIdx_cons, grpOf_cons]
    by_cases h : r.1 == s
    · simp only [h, if_pos, List.map_append, List.map_map]
      have h0 : ([0].map fun i => (((r :: rs)).map Prod.snd).getD i d) = [r.2] := by
        simp
      rw [h0]
      have h1 : ((fun i => ((r :: rs).map Prod.snd).getD i d) ∘ Nat.succ) =
          (fun i => (rs.map Prod.snd).getD i d) := by
        funext i
        simp [Function.comp, List.getD_cons_succ]
      rw [h1, ih]
      simp
    · simp only [h, Bool.false_eq_true, if_false, List.nil_append, List.map_map]
      have h1 : ((fun i => ((r :: rs).map Prod.snd).getD i d) ∘ Nat.succ) =
          (fun i => (rs.map Prod.snd).getD i d) := by
        funext i
        simp [Function.comp, List.getD_cons_succ]
      rw [h1, ih]

theorem getD_snd_eq_grp {α : Type} (rows : List (String × α)) (s : String) (d : α)
    {i : ℕ} (h : i ∈ sIdx rows s) :
    (rows.map Prod.snd).getD i d = (grpOf rows s).getD (cntBefore rows i s) d := by
  obtain ⟨m, hmlt, hmi⟩ := List.getElem_of_mem h
  have hmg : m < (grpOf rows s).length := by rw [← length_sIdx]; exact hmlt
  have hidx : (sIdx rows s).getD m 0 = i := by
    rw [List.getD_eq_getElem _ _ hmlt, hmi]
  have hA := congrArg (fun l => l.getD m d) (sIdx_map_getD_snd rows s d)
  simp only at hA
  rw [getD_map_of_lt _ _ hmlt d 0, hidx] at hA
  have hB := congrArg (fun l => l.getD m 0) (sIdx_map_cntBefore rows s)
  simp only at hB
  rw [getD_map_of_lt _ _ hmlt 0 0, hidx] at hB
  have hrange : (List.range (grpOf rows s).length).getD m 0 = m := by
    rw [List.getD_eq_getElem _ _ (by simpa using hmg), List.getElem_range]
  rw [hrange] at hB
  rw [hB]
  exact hA

/-! ### Column lengths -/

theorem length_rollingApply (agg : List ℚ → ℚ) (n : ℕ) (xs : List ℚ) :
    (rollingApply agg n xs).length = xs.length := by simp [rollingApply]

theorem length_shiftOpt (n : ℕ) (col : List (Option ℚ)) :
    (shiftOpt n col).length = col.length := by simp [shiftOpt]

theorem length_smaSeries (n : ℕ) (bars : List Bar) :
    (smaSeries n bars).length = bars.length := by
  simp [smaSeries, length_rollingApply]

theorem length_avgVolSeries (n : ℕ) (bars : List Bar) :
    (avgVolSeries n bars).length = bars.length := by
  simp [avgVolSeries, length_rollingApply]

theorem length_highSeries (n : ℕ) (bars : List Bar) :
    (highSeries n bars).length = bars.length := by
  simp [highSeries, length_rollingApply]

theorem length_lowSeries (n : ℕ) (bars : List Bar) :
    (lowSeries n bars).length = bars.length := by
  simp [lowSeries, length_rollingApply]

theorem length_adrSeries (n : ℕ) (bars : List Bar) :
    (adrSeries n bars).length = bars.length := by
  simp [adrSeries, length_rollingApply]

theorem length_prevHighSeries (bars : List Bar) :
    (prevHighSeries bars).length = bars.length := by
  simp [prevHighSeries, length_shiftOpt]

/-! ### Each engine column, restricted to one symbol, is the
single-series expression of that symbol's partition -/

theorem selCol_sma50 (rows : List TRow) (s : String) :
    selCol rows s (sma50Col rows) = smaSeries 50 (grpOf rows s) :=
  selCol_overCol _ (fun l => length_smaSeries 50 l) rows s

theorem selCol_sma150 (rows : List TRow) (s : String) :
    selCol rows s (sma150Col rows) = smaSeries 150 (grpOf rows s) :=
  selCol_overCol _ (fun l => length_smaSeries 150 l) rows s

theorem selCol_sma200 (rows : List TRow) (s : String) :
    selCol rows s (sma200Col rows) = smaSeries 200 (grpOf rows s) :=
  selCol_overCol _ (fun l => length_smaSeries 200 l) rows s

theorem selCol_avgVol20 (rows : List TRow) (s : String) :
    selCol rows s (avgVol20Col rows) = avgVolSeries 20 (grpOf rows s) :=
  selCol_overCol _ (fun l => length_avgVolSeries 20 l) rows s

theorem selCol_high252 (rows : List TRow) (s : String) :
    selCol rows s (high252Col rows) = highSeries 252 (grpOf rows s) :=
  selCol_overCol _ (fun l => length_highSeries 252 l) rows s

theorem selCol_low252 (rows : List TRow) (s : String) :
    selCol rows s (low252Col rows) = lowSeries 252 (grpOf rows s) :=
  selCol_overCol _ (fun l => length_lowSeries 252 l) rows s

theorem selCol_adr20 (rows : List TRow) (s : String) :
    selCol rows s (adr20Col rows) = adrSeries 20 (grpOf rows s) :=
  selCol_overCol _ (fun l => length_adrSeries 20 l) rows s

theorem selCol_prevHigh (rows : List TRow) (s : String) :
    selCol rows s (prevHighCol rows) = prevHighSeries (grpOf rows s) :=
  selCol_overCol _ (fun l => length_prevHighSeries l) rows s

theorem selCol_rvol20 (rows : List TRow) (s : String) :
    selCol rows s (rvol20Col rows) = rvolSeries (grpOf rows s) := by
  unfold selCol rvol20Col rvolSeries
  have h1 : ∀ i ∈ sIdx rows s,
      ((List.range rows.length).map (fun i => ((avgVol20Col rows).getD i none).map
         (fun a => (barAt rows i).volume / a))).getD i none =
      ((avgVolSeries 20 (grpOf rows s)).getD (cntBefore rows i s) none).map
         (fun a => ((grpOf rows s).getD (cntBefore rows i s) default).volume / a) := by
    intro i hi
    obtain ⟨hlt, hsym⟩ := mem_sIdx hi
    rw [getD_map_range _ hlt]
    have hav : (avgVol20Col rows).getD i none =
        (avgVolSeries 20 (grpOf rows s)).getD (cntBefore rows i s) none := by
      unfold avgVol20Col overCol
      rw [getD_map_range _ hlt]
      unfold overAt
      rw [hsym]
    have hbar : barAt rows i = (grpOf rows s).getD (cntBefore rows i s) default := by
      unfold barAt
      exact getD_snd_eq_grp rows s default hi
    rw [hav, hbar]
  rw [List.map_congr_left h1]
  have h2 : (fun i => ((avgVolSeries 20 (grpOf rows s)).getD (cntBefore rows i s) none).map
       (fun a => ((grpOf rows s).getD (cntBefore rows i s) default).volume / a)) =
      (fun j => ((avgVolSeries 20 (grpOf rows s)).getD j none).map
       (fun a => ((grpOf rows s).getD j default).volume / a)) ∘
        (fun i => cntBefore rows i s) := rfl
  rw [h2, ← List.map_map, sIdx_map_cntBefore]

theorem selCol_sma200Shift20 (rows : List TRow) (s : String) :
    selCol rows s (sma200Shift20Col rows) = sma200ShiftSeries (grpOf rows s) := by
  unfold sma200Shift20Col sma200ShiftSeries
  rw [selCol_overShift, selCol_sma200]

/-! ### The sorted universe restricted to one symbol is that symbol's
stored series -/

theorem tagRows_cons (p : String × List Bar) (ps : Storage) :
    tagRows (p :: ps) = p.2.map (fun b => ((p.1, b) : TRow)) ++ tagRows ps := by
  simp [tagRows]

theorem tagRows_filter_nil (storage : Storage) (s : String)
    (h : ∀ p ∈ storage, p.1 ≠ s) :
    (tagRows storage).filter (fun x : TRow => x.1 == s) = [] := by
  induction storage with
  | nil => rfl
  | cons p ps ih =>
    rw [tagRows_cons, List.filter_append]
    have hp : p.1 ≠ s := h p (List.mem_cons_self _ _)
    have h1 : (p.2.map (fun b => ((p.1, b) : TRow))).filter (fun x => x.1 == s) = [] := by
      rw [filter_map']
      simp [hp]
    rw [h1, ih (fun q hq => h q (List.mem_cons_of_mem _ hq)), List.nil_append]

theorem tagRows_filter (storage : Storage) (s : String) (bars : List Bar)
    (hN : (storage.map Prod.fst).Nodup) (hmem : (s, bars) ∈ storage) :
    (tagRows storage).filter (fun x : TRow => x.1 == s) =
      bars.map (fun b => ((s, b) : TRow)) := by
  induction storage with
  | nil => cases hmem
  | cons p ps ih =>
    rw [tagRows_cons, List.filter_append]
    have hN' : (ps.map Prod.fst).Nodup ∧ p.1 ∉ ps.map Prod.fst := by
      rw [List.map_cons] at hN
      exact ⟨(List.nodup_cons.1 hN).2, (List.nodup_cons.1 hN).1⟩
    rcases List.mem_cons.1 hmem with heq | hmem'
    · rcases heq.symm with rfl
      have h1 : (bars.map (fun b => ((s, b) : TRow))).filter (fun x => x.1 == s) =
          bars.map (fun b => ((s, b) : TRow)) := by
        rw [filter_map']
        simp
      have h2 : (tagRows ps).filter (fun x : TRow => x.1 == s) = [] := by
        apply tagRows_filter_nil
        intro q hq hqs
        exact hN'.2 (hqs ▸ List.mem_map.2 ⟨q, hq, rfl⟩)
      rw [h1, h2, List.append_nil]
    · have hps : s ∈ ps.map Prod.fst := List.mem_map.2 ⟨(s, bars), hmem', rfl⟩
      have hp : p.1 ≠ s := fun hcontra => hN'.2 (hcontra ▸ hps)
      have h1 : (p.2.map (fun b => ((p.1, b) : TRow))).filter (fun x => x.1 == s) = [] := by
        rw [filter_map']
        simp [hp]
      rw [h1, List.nil_append, ih hN'.1 hmem']

theorem grpOf_universeRows (storage : Storage) (s : String) (bars : List Bar)
    (hN : (storage.map Prod.fst).Nodup)
    (hsorted : List.Pairwise (fun a b : Bar => a.date < b.date) bars)
    (hmem : (s, bars) ∈ storage) :
    grpOf (universeRows storage) s = bars := by
  have hperm0 : List.Perm (universeRows storage) (tagRows storage) :=
    List.perm_insertionSort rowLe _
  have hpermf : List.Perm ((universeRows storage).filter (fun x : TRow => x.1 == s))
      (bars.map (fun b => ((s, b) : TRow))) := by
    have h := hperm0.filter (fun x : TRow => x.1 == s)
    rwa [tagRows_filter storage s bars hN hmem] at h
  have hpermg : List.Perm (grpOf (universeRows storage) s) bars := by
    have h := hpermf.map Prod.snd
    simpa [grpOf, List.map_map] using h
  have hsortU : List.Pairwise rowLe (universeRows storage) :=
    List.sorted_insertionSort rowLe _
  have hsortF : List.Pairwise rowLe
      ((universeRows storage).filter (fun x : TRow => x.1 == s)) :=
    List.Pairwise.sublist (List.filter_sublist _) hsortU
  have hall : ∀ x ∈ (universeRows storage).filter (fun x : TRow => x.1 == s), x.1 = s :=
    fun x hx => by simpa using (List.mem_filter.1 hx).2
  have hdLe : List.Pairwise (fun a b : Bar => a.date ≤ b.date)
      (grpOf (universeRows storage) s) := by
    unfold grpOf
    rw [List.pairwise_map]
    refine List.Pairwise.imp_of_mem ?_ hsortF
    intro a b ha hb hab
    rcases hab with h' | ⟨_, hd⟩
    · rw [hall a ha, hall b hb] at h'
      exact absurd h' (lt_irrefl _)
    · exact hd
  have hbN : (bars.map Bar.date).Nodup := by
    have h := List.pairwise_map.2 hsorted
    exact h.imp (fun hlt => Nat.ne_of_lt hlt)
  have hdatesN : ((grpOf (universeRows storage) s).map Bar.date).Nodup :=
    ((hpermg.map Bar.date).nodup_iff).2 hbN
  have hdLt : List.Pairwise (fun a b : Bar => a.date < b.date)
      (grpOf (universeRows storage) s) := by
    have hne : List.Pairwise (fun a b : Bar => a.date ≠ b.date)
        (grpOf (universeRows storage) s) := List.pairwise_map.1 hdatesN
    exact (hdLe.and hne).imp (fun h => lt_of_le_of_ne h.1 h.2)
  exact @List.eq_of_perm_of_sorted Bar (fun a b : Bar => a.date < b.date)
    ⟨fun a b h h' => absurd (lt_trans h h') (lt_irrefl _)⟩ _ _ hpermg hdLt hsorted

/-! ### `group_by("symbol").last()` lemmas -/

theorem mem_firstOccsAux {α : Type} [BEq α] [LawfulBEq α] (l : List α) :
    ∀ (seen : List α) (a : α), a ∈ firstOccsAux l seen ↔ a ∈ l ∧ a ∉ seen := by
  induction l with
  | nil => intro seen a; simp [firstOccsAux]
  | cons s rest ih =>
    intro seen a
    unfold firstOccsAux
    by_cases hc : seen.contains s
    · rw [if_pos hc, ih]
      have hs : s ∈ seen := List.elem_iff.1 hc
      constructor
      · rintro ⟨h1, h2⟩
        exact ⟨List.mem_cons_of_mem _ h1, h2⟩
      · rintro ⟨h1, h2⟩
        rcases List.mem_cons.1 h1 with rfl | h1'
        · exact absurd hs h2
        · exact ⟨h1', h2⟩
    · rw [if_neg hc]
      have hs : s ∉ seen := fun hmem => hc (List.elem_iff.2 hmem)
      constructor
      · intro h1
        rcases List.mem_cons.1 h1 with rfl | h1'
        · exact ⟨List.mem_cons_self _ _, hs⟩
        · obtain ⟨h2, h3⟩ := (ih _ _).1 h1'
          exact ⟨List.mem_cons_of_mem _ h2,
            fun hmem => h3 (List.mem_cons_of_mem _ hmem)⟩
      · rintro ⟨h1, h2⟩
        rcases List.mem_cons.1 h1 with rfl | h1'
        · exact List.mem_cons_self _ _
        · by_cases has : a = s
          · exact has ▸ List.mem_cons_self _ _
          · exact List.mem_cons_of_mem _ ((ih _ _).2
              ⟨h1', fun hmem => (List.mem_cons.1 hmem).elim has h2⟩)

theorem mem_firstOccs {α : Type} [BEq α] [LawfulBEq α] (l : List α) (a : α) :
    a ∈ firstOccs l ↔ a ∈ l := by
  rw [firstOccs, mem_firstOccsAux]
  simp

theorem nodup_firstOccsAux {α : Type} [BEq α] [LawfulBEq α] (l : List α) :
    ∀ seen : List α, (firstOccsAux l seen).Nodup := by
  induction l with
  | nil => intro seen; simp [firstOccsAux]
  | cons s rest ih =>
    intro seen
    unfold firstOccsAux
    by_cases hc : seen.contains s
    · rw [if_pos hc]; exact ih _
    · rw [if_neg hc]
      refine List.nodup_cons.2 ⟨?_, ih _⟩
      intro hmem
      exact ((mem_firstOccsAux rest _ s).1 hmem).2 (List.mem_cons_self _ _)

theorem nodup_firstOccs {α : Type} [BEq α] [LawfulBEq α] (l : List α) :
    (firstOccs l).Nodup := nodup_firstOccsAux l []

theorem filterMap_getLast_filter (syms : List String) (frame : List IRow)
    (hN : syms.Nodup) (s : String) :
    (syms.filterMap (fun t => (frame.filter (fun r => r.symbol == t)).getLast?)).filter
        (fun r => r.symbol == s) =
      if s ∈ syms then ((frame.filter (fun r => r.symbol == s)).getLast?).toList
      else [] := by
  induction syms with
  | nil => simp
  | cons t ts ih =>
    have hN' := List.nodup_cons.1 hN
    rcases hg : (frame.filter (fun r => r.symbol == t)).getLast? with _ | r
    · rw [@List.filterMap_cons_none String IRow
        (fun t => (frame.filter (fun r => r.symbol == t)).getLast?) t ts hg, ih hN'.2]
      by_cases hts : s ∈ ts
      · rw [if_pos hts, if_pos (List.mem_cons_of_mem _ hts)]
      · by_cases hst : s = t
        · rw [if_neg hts, if_pos (hst ▸ List.mem_cons_self t ts), hst, hg]
          rfl
        · rw [if_neg hts, if_neg
            (fun hmem => (List.mem_cons.1 hmem).elim hst hts)]
    · have hrt : r.symbol = t := by
        have hmem := List.mem_of_getLast?_eq_some hg
        simpa using (List.mem_filter.1 hmem).2
      rw [@List.filterMap_cons_some String IRow
        (fun t => (frame.filter (fun r => r.symbol == t)).getLast?) t ts r hg,
        List.filter_cons]
      by_cases hst : t = s
      · have hnotts : s ∉ ts := hst ▸ hN'.1
        rw [if_pos (by simp [hrt, hst]), ih hN'.2, if_neg hnotts,
          if_pos (hst ▸ List.mem_cons_self t ts), ← hst, hg]
        rfl
      · rw [if_neg (by simp [hrt, hst]), ih hN'.2]
        by_cases hts : s ∈ ts
        · rw [if_pos hts, if_pos (List.mem_cons_of_mem _ hts)]
        · rw [if_neg hts, if_neg
            (fun hmem => (List.mem_cons.1 hmem).elim (fun h => hst h.symm) hts)]

/-! ### Criteria lemmas -/

theorem mem_applyCriteria (o : ScanOptions) (l : List IRow) (r : IRow) :
    r ∈ applyCriteria o l ↔ r ∈ l ∧ passB o r = true := by
  obtain ⟨mp, mv, mrv, ma, tt, rsi⟩ := o
  cases mp <;> cases mv <;> cases mrv <;> cases ma <;> cases tt <;>
    simp [applyCriteria, passB, optCheck, List.mem_filter, and_assoc] <;>
    tauto

theorem applyCriteria_sub (o : ScanOptions) (l : List IRow) (r : IRow)
    (h : r ∈ applyCriteria o l) : r ∈ l :=
  ((mem_applyCriteria o l r).1 h).1

theorem optCheck_union {a b : Option ℚ} (t : ℚ → Bool)
    (hc : a = none ∨ b = none ∨ a = b)
    (h : optCheck (a <|> b) t = true) :
    optCheck a t = true ∧ optCheck b t = true := by
  rcases a with _ | x <;> rcases b with _ | y
  · exact ⟨rfl, rfl⟩
  · exact ⟨rfl, by simpa [optCheck] using h⟩
  · exact ⟨by simpa [optCheck] using h, rfl⟩
  · rcases hc with h' | h' | h'
    · cases h'
    · cases h'
    · have hxy : x = y := by simpa using h'
      subst hxy
      have hx : t x = true := by simpa [optCheck] using h
      exact ⟨hx, hx⟩

theorem passB_union {o1 o2 : ScanOptions} (hc : compatOpts o1 o2) (r : IRow)
    (h : passB (unionOpts o1 o2) r = true) :
    passB o1 r = true ∧ passB o2 r = true := by
  obtain ⟨hc1, hc2, hc3, hc4⟩ := hc
  simp only [passB, Bool.and_eq_true] at h
  obtain ⟨⟨⟨⟨h1, h2⟩, h3⟩, h4⟩, h5⟩ := h
  have h1' : optCheck (o1.min_price <|> o2.min_price)
      (fun p => decide (p ≤ r.bar.close)) = true := h1
  have h2' : optCheck (o1.min_volume <|> o2.min_volume)
      (fun v => decide (v ≤ r.bar.volume)) = true := h2
  have h3' : optCheck (o1.min_relative_volume <|> o2.min_relative_volume)
      (fun v => optGeB r.rvol_20 v) = true := h3
  have h4' : optCheck (o1.min_adr <|> o2.min_adr)
      (fun v => optGeB r.adr_20 v) = true := h4
  have p1 := optCheck_union _ hc1 h1'
  have p2 := optCheck_union _ hc2 h2'
  have p3 := optCheck_union _ hc3 h3'
  have p4 := optCheck_union _ hc4 h4'
  have h5' : (!(o1.trend_template || o2.trend_template) || trendPassB r) = true := h5
  have p5 : (!o1.trend_template || trendPassB r) = true ∧
      (!o2.trend_template || trendPassB r) = true := by
    cases ht1 : o1.trend_template <;> cases ht2 : o2.trend_template <;>
      simp_all
  constructor
  · simp only [passB, Bool.and_eq_true]
    exact ⟨⟨⟨⟨p1.1, p2.1⟩, p3.1⟩, p4.1⟩, p5.1⟩
  · simp only [passB, Bool.and_eq_true]
    exact ⟨⟨⟨⟨p1.2, p2.2⟩, p3.2⟩, p4.2⟩, p5.2⟩

theorem trendPassB_iff (r : IRow) : trendPassB r = true ↔ trendConditions r := by
  unfold trendPassB trendConditions
  rcases h50 : r.sma_50 with _ | a <;>
    rcases h150 : r.sma_150 with _ | b <;>
    rcases h200 : r.sma_200 with _ | c <;>
    rcases h1m : r.sma_200_1m_ago with _ | d <;>
    rcases hlo : r.low_252 with _ | lo <;>
    rcases hhi : r.high_252 with _ | hi <;>
    simp [optGtB, and_assoc]

/-! ### Frame bridging lemmas -/

theorem lastPerSymbol_filter (frame : List IRow) (s : String) :
    (lastPerSymbol frame).filter (fun r => r.symbol == s) =
      if s ∈ frame.map IRow.symbol then
        ((frame.filter (fun r => r.symbol == s)).getLast?).toList
      else [] := by
  unfold lastPerSymbol
  rw [filterMap_getLast_filter _ _ (nodup_firstOccs _) s]
  by_cases h : s ∈ frame.map IRow.symbol
  · rw [if_pos ((mem_firstOccs _ _).2 h), if_pos h]
  · rw [if_neg (fun hc => h ((mem_firstOccs _ _).1 hc)), if_neg h]

theorem mkFrame_filter (storage : Storage) (s : String) :
    (mkFrame storage).filter (fun r => r.symbol == s) =
      (sIdx (universeRows storage) s).map (mkIRowAt (universeRows storage)) := by
  unfold mkFrame
  rw [filter_map']
  rfl

theorem symbols_mkFrame (storage : Storage) :
    (mkFrame storage).map IRow.symbol = (universeRows storage).map Prod.fst := by
  unfold mkFrame
  rw [List.map_map]
  have h := map_getD_self ((universeRows storage).map Prod.fst) ""
  simp only [List.length_map] at h
  exact h

theorem pairwise_lt_getLast_max (bars : List Bar)
    (hsorted : List.Pairwise (fun a b : Bar => a.date < b.date) bars)
    (hne : bars ≠ []) :
    ∀ b ∈ bars, b.date ≤ (bars.getLast hne).date := by
  induction bars with
  | nil => cases hne rfl
  | cons x rest ih =>
    intro b hb
    cases rest with
    | nil =>
      rcases List.mem_cons.1 hb with rfl | hb'
      · simp [List.getLast]
      · simp at hb'
    | cons y t =>
      have hne' : (y :: t) ≠ [] := by simp
      have hlast : (x :: y :: t).getLast hne = (y :: t).getLast hne' :=
        List.getLast_cons hne'
      rcases List.mem_cons.1 hb with rfl | hb'
      · rw [hlast]
        have hmem : (y :: t).getLast hne' ∈ y :: t := List.getLast_mem _
        exact le_of_lt ((List.pairwise_cons.1 hsorted).1 _ hmem)
      · rw [hlast]
        exact ih (List.pairwise_cons.1 hsorted).2 hne' b hb'

/-! ### Remaining helper lemmas -/

theorem grpOf_universeRows_perm (storage : Storage) (s : String) (bars : List Bar)
    (hN : (storage.map Prod.fst).Nodup) (hmem : (s, bars) ∈ storage) :
    List.Perm (grpOf (universeRows storage) s) bars := by
  have hperm0 : List.Perm (universeRows storage) (tagRows storage) :=
    List.perm_insertionSort rowLe _
  have hpermf : List.Perm ((universeRows storage).filter (fun x : TRow => x.1 == s))
      (bars.map (fun b => ((s, b) : TRow))) := by
    have h := hperm0.filter (fun x : TRow => x.1 == s)
    rwa [tagRows_filter storage s bars hN hmem] at h
  have h := hpermf.map Prod.snd
  simpa [grpOf, List.map_map] using h

theorem mem_lastPerSymbol_sub (frame : List IRow) (r : IRow)
    (h : r ∈ lastPerSymbol frame) : r ∈ frame := by
  unfold lastPerSymbol at h
  obtain ⟨t, _, hr⟩ := List.mem_filterMap.1 h
  exact (List.mem_filter.1 (List.mem_of_getLast?_eq_some hr)).1

theorem mem_tagRows {storage : Storage} {x : TRow} (h : x ∈ tagRows storage) :
    ∃ bs, (x.1, bs) ∈ storage ∧ x.2 ∈ bs := by
  unfold tagRows at h
  obtain ⟨p, hp, hx⟩ := List.mem_bind.1 h
  obtain ⟨b, hb, hbx⟩ := List.mem_map.1 hx
  cases hbx
  exact ⟨p.2, by simpa using hp, hb⟩

theorem rollingApply_short (agg : List ℚ → ℚ) (n : ℕ) (xs : List ℚ)
    (h : xs.length < n) (k : ℕ) :
    (rollingApply agg n xs).getD k none = none := by
  by_cases hk : k < xs.length
  · unfold rollingApply
    rw [getD_map_range _ hk]
    have hkn : ¬ n ≤ k + 1 := by omega
    simp [hkn]
  · rw [List.getD_eq_getElem?_getD, List.getElem?_eq_none]
    · rfl
    · rw [length_rollingApply]
      omega

theorem scan_tt_split (o : ScanOptions) (storage : Storage)
    (htt : o.trend_template = true) :
    scan o storage =
      (scan { o with trend_template := false } storage).filter trendPassB := by
  rw [scan, scan]
  obtain ⟨mp, mv, mrv, ma, tt, rsi⟩ := o
  have htt' : tt = true := htt
  subst htt'
  cases mp <;> cases mv <;> cases mrv <;> cases ma <;> rfl

/-! ## Claim theorems -/

/-- C1.  Per-symbol isolation: in a universe scanned together, every
indicator column the engine (or a filter's declared expression) computes
with `.over("symbol")` — `sma_50`, `sma_150`, `sma_200`,
`avg_volume_20`, `rvol_20`, `adr_20`, `high_252`, `low_252`,
`sma_200_1m_ago`, `prev_high` — restricted to symbol `s`'s rows, equals
the same expression computed from `s`'s series alone; no rolling or
shifting window crosses a symbol boundary.  Hypotheses: parquet file
names (symbols) are distinct, and the series is stored sorted with
strictly increasing dates (the spec's Bar invariant). -/
theorem scan_per_symbol_isolation (storage : Storage) (s : String) (bars : List Bar)
    (hN : (storage.map Prod.fst).Nodup)
    (hsorted : List.Pairwise (fun a b : Bar => a.date < b.date) bars)
    (hmem : (s, bars) ∈ storage) :
    selCol (universeRows storage) s (sma50Col (universeRows storage)) =
      smaSeries 50 bars ∧
    selCol (universeRows storage) s (sma150Col (universeRows storage)) =
      smaSeries 150 bars ∧
    selCol (universeRows storage) s (sma200Col (universeRows storage)) =
      smaSeries 200 bars ∧
    selCol (universeRows storage) s (avgVol20Col (universeRows storage)) =
      avgVolSeries 20 bars ∧
    selCol (universeRows storage) s (rvol20Col (universeRows storage)) =
      rvolSeries bars ∧
    selCol (universeRows storage) s (adr20Col (universeRows storage)) =
      adrSeries 20 bars ∧
    selCol (universeRows storage) s (high252Col (universeRows storage)) =
      highSeries 252 bars ∧
    selCol (universeRows storage) s (low252Col (universeRows storage)) =
      lowSeries 252 bars ∧
    selCol (universeRows storage) s (sma200Shift20Col (universeRows storage)) =
      sma200ShiftSeries bars ∧
    selCol (universeRows storage) s (prevHighCol (universeRows storage)) =
      prevHighSeries bars := by
  have hg : grpOf (universeRows storage) s = bars :=
    grpOf_universeRows storage s bars hN hsorted hmem
  refine ⟨?_, ?_, ?_, ?_, ?_, ?_, ?_, ?_, ?_, ?_⟩
  · rw [selCol_sma50, hg]
  · rw [selCol_sma150, hg]
  · rw [selCol_sma200, hg]
  · rw [selCol_avgVol20, hg]
  · rw [selCol_rvol20, hg]
  · rw [selCol_adr20, hg]
  · rw [selCol_high252, hg]
  · rw [selCol_low252, hg]
  · rw [selCol_sma200Shift20, hg]
  · rw [selCol_prevHigh, hg]

/-- Witness for C1 at a concrete two-symbol universe. -/
theorem scan_per_symbol_isolation_witness :
    (wStorage.map Prod.fst).Nodup ∧
    List.Pairwise (fun a b : Bar => a.date < b.date) [bA1, bA2] ∧
    ("GAP", [bA1, bA2]) ∈ wStorage ∧
    (selCol (universeRows wStorage) "GAP" (sma50Col (universeRows wStorage)) =
        smaSeries 50 [bA1, bA2] ∧
      selCol (universeRows wStorage) "GAP" (sma150Col (universeRows wStorage)) =
        smaSeries 150 [bA1, bA2] ∧
      selCol (universeRows wStorage) "GAP" (sma200Col (universeRows wStorage)) =
        smaSeries 200 [bA1, bA2] ∧
      selCol (universeRows wStorage) "GAP" (avgVol20Col (universeRows wStorage)) =
        avgVolSeries 20 [bA1, bA2] ∧
      selCol (universeRows wStorage) "GAP" (rvol20Col (universeRows wStorage)) =
        rvolSeries [bA1, bA2] ∧
      selCol (universeRows wStorage) "GAP" (adr20Col (universeRows wStorage)) =
        adrSeries 20 [bA1, bA2] ∧
      selCol (universeRows wStorage) "GAP" (high252Col (universeRows wStorage)) =
        highSeries 252 [bA1, bA2] ∧
      selCol (universeRows wStorage) "GAP" (low252Col (universeRows wStorage)) =
        lowSeries 252 [bA1, bA2] ∧
      selCol (universeRows wStorage) "GAP" (sma200Shift20Col (universeRows wStorage)) =
        sma200ShiftSeries [bA1, bA2] ∧
      selCol (universeRows wStorage) "GAP" (prevHighCol (universeRows wStorage)) =
        prevHighSeries [bA1, bA2]) :=
  ⟨by decide, by decide, by decide,
    scan_per_symbol_isolation wStorage "GAP" [bA1, bA2]
      (by decide) (by decide) (by decide)⟩

/-- C2.  Latest-row reduction: an unfiltered scan has exactly one row
per symbol present in storage, every result row's symbol is a stored
symbol, and the row for a symbol carries that symbol's maximum date
(upper bound on, and member of, the series' dates).  Hypotheses:
distinct file names, dates strictly increasing in the series (the
spec's Bar invariant), non-empty series. -/
theorem scan_latest_row_per_symbol (storage : Storage) (s : String) (bars : List Bar)
    (hN : (storage.map Prod.fst).Nodup)
    (hsorted : List.Pairwise (fun a b : Bar => a.date < b.date) bars)
    (hne : bars ≠ []) (hmem : (s, bars) ∈ storage) :
    ((scan noCriteria storage).filter (fun r => r.symbol == s)).length = 1 ∧
    (∀ r ∈ scan noCriteria storage, ∃ bs, (r.symbol, bs) ∈ storage) ∧
    ∀ r ∈ scan noCriteria storage, r.symbol = s →
      (∀ b ∈ bars, b.date ≤ r.bar.date) ∧ r.bar.date ∈ bars.map Bar.date := by
  have hscan : scan noCriteria storage = lastPerSymbol (mkFrame storage) := rfl
  have hg : grpOf (universeRows storage) s = bars :=
    grpOf_universeRows storage s bars hN hsorted hmem
  have hbars : ((mkFrame storage).filter (fun r => r.symbol == s)).map IRow.bar =
      bars := by
    rw [mkFrame_filter, List.map_map]
    have hcomp : (IRow.bar ∘ mkIRowAt (universeRows storage)) =
        fun i => ((universeRows storage).map Prod.snd).getD i default := rfl
    rw [hcomp, sIdx_map_getD_snd, hg]
  have hfne : (mkFrame storage).filter (fun r => r.symbol == s) ≠ [] := by
    intro h0
    rw [h0] at hbars
    exact hne hbars.symm
  have hpresent : s ∈ (mkFrame storage).map IRow.symbol := by
    obtain ⟨r, hr⟩ := List.exists_mem_of_ne_nil _ hfne
    have hrr := List.mem_filter.1 hr
    exact List.mem_map.2 ⟨r, hrr.1, by simpa using hrr.2⟩
  obtain ⟨rl, hrl⟩ : ∃ rl,
      ((mkFrame storage).filter (fun r => r.symbol == s)).getLast? = some rl := by
    rcases h : ((mkFrame storage).filter (fun r => r.symbol == s)).getLast? with _ | rl
    · rw [List.getLast?_eq_none_iff] at h
      exact absurd h hfne
    · exact ⟨rl, h⟩
  have hflt : (lastPerSymbol (mkFrame storage)).filter (fun r => r.symbol == s) =
      [rl] := by
    rw [lastPerSymbol_filter, if_pos hpresent, hrl]
    rfl
  have hlastbar : some rl.bar = bars.getLast? := by
    have h := congrArg List.getLast? hbars
    rw [List.getLast?_map, hrl] at h
    exact h
  have hgetlast : bars.getLast hne = rl.bar := by
    have h := List.getLast?_eq_getLast bars hne
    rw [← hlastbar] at h
    exact (Option.some_inj.1 h).symm
  refine ⟨?_, ?_, ?_⟩
  · rw [hscan, hflt]
    rfl
  · intro r hr
    rw [hscan] at hr
    have hrf : r ∈ mkFrame storage := mem_lastPerSymbol_sub _ _ hr
    have hsym : r.symbol ∈ (universeRows storage).map Prod.fst := by
      have h : r.symbol ∈ (mkFrame storage).map IRow.symbol :=
        List.mem_map.2 ⟨r, hrf, rfl⟩
      rwa [symbols_mkFrame] at h
    have htag : r.symbol ∈ (tagRows storage).map Prod.fst := by
      have hperm := (List.perm_insertionSort rowLe (tagRows storage)).map Prod.fst
      exact hperm.mem_iff.1 hsym
    obtain ⟨x, hx, hxs⟩ := List.mem_map.1 htag
    obtain ⟨bs, hbs, _⟩ := mem_tagRows hx
    exact ⟨bs, by rwa [hxs] at hbs⟩
  · intro r hr hrs
    rw [hscan] at hr
    have hrmem : r ∈ (lastPerSymbol (mkFrame storage)).filter
        (fun r => r.symbol == s) := List.mem_filter.2 ⟨hr, by simp [hrs]⟩
    rw [hflt] at hrmem
    have hr_eq : r = rl := by simpa using hrmem
    constructor
    · intro b hb
      rw [hr_eq, ← hgetlast]
      exact pairwise_lt_getLast_max bars hsorted hne b hb
    · rw [hr_eq, ← hgetlast]
      exact List.mem_map.2 ⟨_, List.getLast_mem hne, rfl⟩

/-- Witness for C2 at a concrete two-symbol universe. -/
theorem scan_latest_row_per_symbol_witness :
    (wStorage.map Prod.fst).Nodup ∧
    List.Pairwise (fun a b : Bar => a.date < b.date) [bA1, bA2] ∧
    [bA1, bA2] ≠ [] ∧
    ("GAP", [bA1, bA2]) ∈ wStorage ∧
    (((scan noCriteria wStorage).filter (fun r => r.symbol == "GAP")).length = 1 ∧
      (∀ r ∈ scan noCriteria wStorage, ∃ bs, (r.symbol, bs) ∈ wStorage) ∧
      ∀ r ∈ scan noCriteria wStorage, r.symbol = "GAP" →
        (∀ b ∈ [bA1, bA2], b.date ≤ r.bar.date) ∧
        r.bar.date ∈ [bA1, bA2].map Bar.date) :=
  ⟨by decide, by decide, by decide, by decide,
    scan_latest_row_per_symbol wStorage "GAP" [bA1, bA2]
      (by decide) (by decide) (by decide) (by decide)⟩

/-- C3.  The claim says `scan` accepts a list of Filter objects and
unions their `required_indicators`; the engine in
`src/scanner/engine.py` instead declares only the keyword thresholds
`min_price, min_volume, min_relative_volume, min_adr, trend_template,
rsi_threshold` and never consults a Filter.  A Python call
`scan(filters=[...])` — exactly what `src/cli.py` (line 328, passing
the list positionally) and `tests/test_scanner_engine.py` perform —
cannot bind: `"filters"` is not among the signature's parameters, so
the call raises `TypeError`.  This theorem evaluates the embedded
signature at that failing input. -/
theorem scan_signature_rejects_filters_keyword :
    scanAcceptsKeyword "filters" = false ∧ scanParams.length = 6 := by
  constructor <;> decide

/-- C4.  Filter conjunction is monotone: a row surviving the scan with
the union of two (compatible) criterion sets survives each set's scan
alone — applying more filters never admits more rows. -/
theorem scan_union_monotone (o1 o2 : ScanOptions) (storage : Storage)
    (hc : compatOpts o1 o2) :
    ∀ r ∈ scan (unionOpts o1 o2) storage,
      r ∈ scan o1 storage ∧ r ∈ scan o2 storage := by
  intro r hr
  rw [scan, mem_applyCriteria] at hr
  obtain ⟨hbase, hpass⟩ := hr
  obtain ⟨hp1, hp2⟩ := passB_union hc r hpass
  exact ⟨(mem_applyCriteria _ _ _).2 ⟨hbase, hp1⟩,
    (mem_applyCriteria _ _ _).2 ⟨hbase, hp2⟩⟩

/-- Witness for C4: a price filter unioned with a relative-volume
filter at a concrete universe. -/
theorem scan_union_monotone_witness :
    compatOpts priceOpts rvolOpts ∧
    ∀ r ∈ scan (unionOpts priceOpts rvolOpts) wStorage,
      r ∈ scan priceOpts wStorage ∧ r ∈ scan rvolOpts wStorage :=
  ⟨⟨Or.inr (Or.inl rfl), Or.inl rfl, Or.inl rfl, Or.inl rfl⟩,
    scan_union_monotone priceOpts rvolOpts wStorage
      ⟨Or.inr (Or.inl rfl), Or.inl rfl, Or.inl rfl, Or.inl rfl⟩⟩

/-- C5.  The claim says a storage directory with zero symbol files
yields an empty result and never raises.  The code does not: its
`try/except` wraps only the lazy `pl.scan_parquet` constructor, and
the zero-file glob failure surfaces at `lf.collect()` (engine.py line
124), outside the `try`, so `scan` raises for exactly the claimed
input.  This theorem evaluates the embedded run at that failing input
— every criterion set over empty storage errors — and shows the error
is confined to it: any storage with at least one file collects the
filtered frame. -/
theorem scan_empty_universe_raises (o : ScanOptions) :
    scanRun o ([] : Storage) =
      Except.error "expected at least 1 source: glob matched no files" ∧
    ∀ storage : Storage, storage ≠ [] →
      scanRun o storage = Except.ok (scan o storage) := by
  refine ⟨rfl, ?_⟩
  intro storage hne
  cases storage with
  | nil => cases hne rfl
  | cons p ps => rfl

/-- C6.  Null-safety for short series: a symbol with fewer than 20 rows
has null `rvol_20` and `adr_20` on its (unique) collapsed row, and any
scan whose criteria reference one of those indicators excludes the
symbol.  The model is total, so no step of the scan can raise. -/
theorem scan_short_series_null_safe (storage : Storage) (o : ScanOptions)
    (s : String) (bars : List Bar)
    (hN : (storage.map Prod.fst).Nodup)
    (hmem : (s, bars) ∈ storage) (hshort : bars.length < 20) :
    (∀ r ∈ lastPerSymbol (mkFrame storage), r.symbol = s →
        r.rvol_20 = none ∧ r.adr_20 = none) ∧
    ((o.min_relative_volume ≠ none ∨ o.min_adr ≠ none) →
      ∀ r ∈ scan o storage, r.symbol ≠ s) := by
  have hglen : (grpOf (universeRows storage) s).length = bars.length :=
    (grpOf_universeRows_perm storage s bars hN hmem).length_eq
  have hnull : ∀ r ∈ lastPerSymbol (mkFrame storage), r.symbol = s →
      r.rvol_20 = none ∧ r.adr_20 = none := by
    intro r hr hrs
    have hrf : r ∈ (mkFrame storage).filter (fun r => r.symbol == s) :=
      List.mem_filter.2 ⟨mem_lastPerSymbol_sub _ _ hr, by simp [hrs]⟩
    rw [mkFrame_filter] at hrf
    obtain ⟨i, hi, hri⟩ := List.mem_map.1 hrf
    obtain ⟨hilt, hisym⟩ := mem_sIdx hi
    have havnone : (avgVol20Col (universeRows storage)).getD i none = none := by
      unfold avgVol20Col overCol
      rw [getD_map_range _ hilt]
      unfold overAt
      rw [hisym]
      unfold avgVolSeries
      apply rollingApply_short
      rw [List.length_map, hglen]
      exact hshort
    constructor
    · rw [← hri]
      show (rvol20Col (universeRows storage)).getD i none = none
      unfold rvol20Col
      rw [getD_map_range _ hilt, havnone]
      rfl
    · rw [← hri]
      show (adr20Col (universeRows storage)).getD i none = none
      unfold adr20Col overCol
      rw [getD_map_range _ hilt]
      unfold overAt
      rw [hisym]
      unfold adrSeries
      apply rollingApply_short
      rw [List.length_map, hglen]
      exact hshort
  refine ⟨hnull, ?_⟩
  rintro hdis r hr hrs
  rw [scan, mem_applyCriteria] at hr
  obtain ⟨hbase, hpass⟩ := hr
  obtain ⟨hrv, hadr⟩ := hnull r hbase hrs
  simp only [passB, Bool.and_eq_true] at hpass
  obtain ⟨⟨⟨⟨_, _⟩, h3⟩, h4⟩, _⟩ := hpass
  rcases hdis with hv | hv
  · rcases hx : o.min_relative_volume with _ | v
    · exact hv hx
    · rw [hx] at h3
      simp [optCheck, optGeB, hrv] at h3
  · rcases hx : o.min_adr with _ | v
    · exact hv hx
    · rw [hx] at h4
      simp [optCheck, optGeB, hadr] at h4

/-- Witness for C6: the two-bar symbol GAP (2 < 20 rows) under the
relative-volume criterion. -/
theorem scan_short_series_null_safe_witness :
    (wStorage.map Prod.fst).Nodup ∧
    ("GAP", [bA1, bA2]) ∈ wStorage ∧
    ([bA1, bA2] : List Bar).length < 20 ∧
    ((∀ r ∈ lastPerSymbol (mkFrame wStorage), r.symbol = "GAP" →
        r.rvol_20 = none ∧ r.adr_20 = none) ∧
      ((rvolOpts.min_relative_volume ≠ none ∨ rvolOpts.min_adr ≠ none) →
        ∀ r ∈ scan rvolOpts wStorage, r.symbol ≠ "GAP")) :=
  ⟨by decide, by decide, by decide,
    scan_short_series_null_safe wStorage rvolOpts "GAP" [bA1, bA2]
      (by decide) (by decide) (by decide)⟩

/-- C7.  TrendTemplate predicate: with the trend template active, a row
is in the scan result iff it is in the result of the same scan without
the trend criterion and its latest-row indicators exist (non-null) and
satisfy `close > sma_50 > sma_150 > sma_200`,
`sma_200 > sma_200_1m_ago`, `close > low_252 * 1.25` and
`close > high_252 * 0.75`; a null in any of them fails the filter. -/
theorem scan_trend_template_iff (o : ScanOptions) (storage : Storage) (r : IRow)
    (htt : o.trend_template = true) :
    r ∈ scan o storage ↔
      r ∈ scan { o with trend_template := false } storage ∧
        trendConditions r := by
  rw [scan_tt_split o storage htt, List.mem_filter, trendPassB_iff]

/-- Witness for C7 at the concrete trend-template option set. -/
theorem scan_trend_template_iff_witness :
    ttOpts.trend_template = true ∧
    (wRow ∈ scan ttOpts wStorage ↔
      wRow ∈ scan { ttOpts with trend_template := false } wStorage ∧
        trendConditions wRow) :=
  ⟨rfl, scan_trend_template_iff ttOpts wStorage wRow rfl⟩

/-- C8.  GapUp predicate: a row passes iff its `prev_high` (the same
symbol's high shifted one row) exists and
`open > prev_high * (1 + threshold_pct/100)`; concretely, with the
previous day's high 11 (as produced by the shift pipeline on a two-bar
series) and threshold 5, an open of 11.6 passes (11.6 > 11.55) and an
open of 11.2 fails. -/
theorem gapUp_predicate :
    (∀ (t o : ℚ) (ph : Option ℚ),
      gapPassB t o ph = true ↔ ∃ p, ph = some p ∧ p * (1 + t / 100) < o) ∧
    (prevHighSeries [bA1, bA2]).getD 1 none = some 11 ∧
    gapPassB 5 (58 / 5) ((prevHighSeries [bA1, bA2]).getD 1 none) = true ∧
    gapPassB 5 (56 / 5) ((prevHighSeries [bA1, bA2]).getD 1 none) = false := by
  have hph : (prevHighSeries [bA1, bA2]).getD 1 none = some 11 := by decide
  refine ⟨?_, hph, ?_, ?_⟩
  · intro t o ph
    rcases ph with _ | p <;> simp [gapPassB]
  · rw [hph]
    simp only [gapPassB, decide_eq_true_eq]
    norm_num
  · rw [hph]
    simp only [gapPassB, decide_eq_false_iff_not]
    norm_num

/-- Auxiliary: projecting the date out of rows built from bucket keys
recovers the keys. -/
theorem map_date_mk (l : List ℕ) (f : ℕ → Bar) (hf : ∀ k, (f k).date = k) :
    (l.map f).map Bar.date = l := by
  rw [List.map_map]
  have h : ∀ a ∈ l, (Bar.date ∘ f) a = a := fun a _ => hf a
  rw [List.map_congr_left h]
  exact List.map_id' l

/-- C9.  Chart resampling: every output row of the plotter's resampled
frame aggregates its (non-empty) bucket — the rows of the date-sorted
input whose truncated date is the bucket key — with open = first open,
high = max high, low = min low, close = last close, volume = sum of
volumes, the bucket's rows being in ascending date order; moreover
every input row lands in some output bucket and bucket keys are
distinct. -/
theorem resample_ohlcv_agg (every : ℕ) (df : List Bar) (he : 0 < every) :
    (∀ r ∈ resampleOHLCV every df,
      bucketRows every df r.date ≠ [] ∧
      r.«open» = ((bucketRows every df r.date).map Bar.«open»).headD 0 ∧
      r.high = maxAgg ((bucketRows every df r.date).map Bar.high) ∧
      r.low = minAgg ((bucketRows every df r.date).map Bar.low) ∧
      r.close = ((bucketRows every df r.date).map Bar.close).getLastD 0 ∧
      r.volume = ((bucketRows every df r.date).map Bar.volume).sum ∧
      List.Pairwise dateLe (bucketRows every df r.date)) ∧
    (∀ b ∈ df, ∃ r ∈ resampleOHLCV every df, r.date = bucketOf every b.date) ∧
    ((resampleOHLCV every df).map Bar.date).Nodup := by
  refine ⟨?_, ?_, ?_⟩
  · intro r hr
    unfold resampleOHLCV at hr
    obtain ⟨k, hk, rfl⟩ := List.mem_map.1 hr
    refine ⟨?_, rfl, rfl, rfl, rfl, rfl, ?_⟩
    · have hk' : k ∈ (sortByDate df).map (fun b => bucketOf every b.date) :=
        (mem_firstOccs _ _).1 hk
      obtain ⟨b, hb, hbk⟩ := List.mem_map.1 hk'
      intro h0
      have hmem : b ∈ bucketRows every df k :=
        List.mem_filter.2 ⟨hb, by simp [hbk]⟩
      rw [h0] at hmem
      cases hmem
    · have hs : List.Pairwise dateLe (sortByDate df) :=
        List.sorted_insertionSort dateLe df
      exact List.Pairwise.sublist (List.filter_sublist _) hs
  · intro b hb
    have hbs : b ∈ sortByDate df :=
      (List.perm_insertionSort dateLe df).mem_iff.2 hb
    have hk : bucketOf every b.date ∈
        (sortByDate df).map (fun b => bucketOf every b.date) :=
      List.mem_map.2 ⟨b, hbs, rfl⟩
    exact ⟨_, List.mem_map.2 ⟨_, (mem_firstOccs _ _).2 hk, rfl⟩, rfl⟩
  · unfold resampleOHLCV
    rw [map_date_mk _ _ (fun k => rfl)]
    exact nodup_firstOccs _

/-- Witness for C9 at a concrete unsorted series and interval 2. -/
theorem resample_ohlcv_agg_witness :
    0 < 2 ∧
    ((∀ r ∈ resampleOHLCV 2 [bA2, bA1, bB1],
      bucketRows 2 [bA2, bA1, bB1] r.date ≠ [] ∧
      r.«open» = ((bucketRows 2 [bA2, bA1, bB1] r.date).map Bar.«open»).headD 0 ∧
      r.high = maxAgg ((bucketRows 2 [bA2, bA1, bB1] r.date).map Bar.high) ∧
      r.low = minAgg ((bucketRows 2 [bA2, bA1, bB1] r.date).map Bar.low) ∧
      r.close = ((bucketRows 2 [bA2, bA1, bB1] r.date).map Bar.close).getLastD 0 ∧
      r.volume = ((bucketRows 2 [bA2, bA1, bB1] r.date).map Bar.volume).sum ∧
      List.Pairwise dateLe (bucketRows 2 [bA2, bA1, bB1] r.date)) ∧
    (∀ b ∈ [bA2, bA1, bB1], ∃ r ∈ resampleOHLCV 2 [bA2, bA1, bB1],
      r.date = bucketOf 2 b.date) ∧
    ((resampleOHLCV 2 [bA2, bA1, bB1]).map Bar.date).Nodup) :=
  ⟨by decide, resample_ohlcv_agg 2 [bA2, bA1, bB1] (by decide)⟩

/-- C10.  Implicit schema floor: for every criterion set, the scan's
frame carries the columns `sma_50`, `sma_150`, `sma_200`,
`avg_volume_20` and `rvol_20` — these window expressions and the
derived `rvol_20` are attached unconditionally, so every row of a
non-empty result carries them regardless of the requested filters or
thresholds. -/
theorem scan_base_columns_unconditional (o : ScanOptions) :
    "sma_50" ∈ scanColumns o ∧ "sma_150" ∈ scanColumns o ∧
    "sma_200" ∈ scanColumns o ∧ "avg_volume_20" ∈ scanColumns o ∧
    "rvol_20" ∈ scanColumns o := by
  unfold scanColumns baseColumns
  refine ⟨?_, ?_, ?_, ?_, ?_⟩ <;> simp
